import Mathlib

/-!
Verification development for a CHIP-8 style virtual machine
(sources: `src/cpu.rs`, `src/instr.rs`, `src/display.rs`, `src/keyboard.rs`,
`src/spec.rs`).  The machine state and the instruction semantics are embedded
shallowly: `u8`/`u16` values are `Nat` with explicit `% 256` / `% 65536`
wrapping where the source wraps, and operations that can panic in Rust
(out-of-bounds indexing, checked-arithmetic underflow) return `Option`/`Except`.
-/

/-- Single pixel write request, mirroring `display.rs`'s `Pixel { x, y, value }`. -/
structure Pix where
  x : Nat
  y : Nat
  value : Nat
  deriving DecidableEq

/-- Machine state, mirroring `cpu.rs`'s `Cpu` (registers, stack, memory), with the
`Display` pixel grid (`display.rs`, 32 rows of 64 cells, each 0 or 1) and the
`Keyboard` key array (`keyboard.rs`, 16 booleans) folded in as fields.
The SDL renderer, timing fields and debug flags carry no ISA state and are omitted. -/
structure Cpu where
  r_vx : List Nat
  r_i : Nat
  r_dt : Nat
  r_st : Nat
  r_pc : Nat
  r_sp : Nat
  stack : List Nat
  mem : List Nat
  display : List (List Nat)
  keys : List Bool
  deriving DecidableEq

/-- `Cpu::get_vx`: read register `Vx`. -/
def getVx (c : Cpu) (reg : Nat) : Nat := c.r_vx.getD reg 0

/-- `Cpu::set_vx`: write register `Vx`. -/
def setVx (c : Cpu) (reg value : Nat) : Cpu := { c with r_vx := c.r_vx.set reg value }

/-- `Cpu::set_pc`. -/
def setPc (c : Cpu) (addr : Nat) : Cpu := { c with r_pc := addr }

/-- `Cpu::inc_pc`: `set_pc(cur_pc + 2)` on a `u16` (wraps modulo 2^16). -/
def incPc (c : Cpu) : Cpu := setPc c ((c.r_pc + 2) % 65536)

/-- `Cpu::dec_pc`: `set_pc(cur_pc - 2)` on a `u16`; underflow wraps modulo 2^16
(in a debug build the checked subtraction would panic instead; all uses in the
claims assume `pc >= 2`, where the two semantics agree). -/
def decPc (c : Cpu) : Cpu := setPc c ((c.r_pc + 65536 - 2) % 65536)

/-- `Cpu::push_stack`: `r_sp += 1` (u8) then `stack[r_sp] = value`.  The store
indexes the 16-entry stack array and panics out of bounds, modelled as `none`. -/
def pushStack (c : Cpu) (value : Nat) : Option Cpu :=
  let sp := (c.r_sp + 1) % 256
  if sp < 16 then some { c with r_sp := sp, stack := c.stack.set sp value }
  else none

/-- `Cpu::pop_stack`: reads `stack[r_sp]` (panics if `r_sp >= 16`), then
`r_sp -= 1` (u8, checked subtraction panics at 0).  Both panics are `none`. -/
def popStack (c : Cpu) : Option (Nat × Cpu) :=
  if c.r_sp = 0 ∨ 16 ≤ c.r_sp then none
  else some (c.stack.getD c.r_sp 0, { c with r_sp := c.r_sp - 1 })

/-- `Cpu::read_mem`: `mem[addr..addr+n].to_vec()`; a slice beyond the array
bound panics, modelled as `none`. -/
def readMem (c : Cpu) (addr n : Nat) : Option (List Nat) :=
  if addr + n ≤ c.mem.length then some ((c.mem.drop addr).take n) else none

/-- `Cpu::put_mem` / `Cpu::set_mem`: `mem[addr] = value`, panics out of bounds. -/
def putMem (c : Cpu) (addr value : Nat) : Option Cpu :=
  if addr < c.mem.length then some { c with mem := c.mem.set addr value }
  else none

/-- `Cpu::dec_dt`: `r_dt.checked_sub(1).unwrap_or(0)`. -/
def decDt (c : Cpu) : Cpu := { c with r_dt := c.r_dt - 1 }

/-- `Display::get_pixel`: `self.pixels[y][x]`. -/
def getPixel (d : List (List Nat)) (x y : Nat) : Nat := (d.getD y []).getD x 0

/-- One store `self.pixels[y][x] = value` from `Display::draw`. -/
def setPixel (d : List (List Nat)) (x y value : Nat) : List (List Nat) :=
  d.set y ((d.getD y []).set x value)

/-- `Display::draw`: write every queued pixel into the grid, in order. -/
def drawList (d : List (List Nat)) (ps : List Pix) : List (List Nat) :=
  ps.foldl (fun t p => setPixel t p.x p.y p.value) d

/-- `Display::clear` (`CLS` zeroes the whole 64x32 grid). -/
def clearDisplay : List (List Nat) := List.replicate 32 (List.replicate 64 0)

/-- `Keyboard::pressed`: `self.keys[key]` on a 16-entry array; an index
outside `0..16` panics, modelled as `none`. -/
def kbPressed (keys : List Bool) (key : Nat) : Option Bool :=
  if key < 16 then some (keys.getD key false) else none

/-- The scan `for i in 0..16 { if self.keyboard.pressed(i) ... }` from
`Cpu::wait_for_input`: first pressed key index, if any. -/
def firstPressed (keys : List Bool) : Option Nat :=
  (List.range 16).find? (fun i => keys.getD i false)

/-- `Cpu::wait_for_input`: store the first pressed key in `Vx` and return;
if no key is pressed, decrement the PC by one instruction. -/
def waitForInput (c : Cpu) (reg : Nat) : Cpu :=
  match firstPressed c.keys with
  | some i => setVx c reg i
  | none => decPc c

/-- `u8::wrapping_add`. -/
def wrapAdd8 (a b : Nat) : Nat := (a + b) % 256

/-- `u8::wrapping_sub` (two's-complement wraparound on 8-bit values). -/
def wrapSub8 (a b : Nat) : Nat := (256 + a % 256 - b % 256) % 256

/-- Decoded instruction: one constructor per `Instr` implementation in
`instr.rs`, carrying the operand fields its `parse` extracts.  The seven
opcodes that `instr.rs` leaves as free-function TODO stubs (`or_vx_vy`,
`add_vx_vy`, `subn_vx_vy`, `shl_vx_vy`, `sne_vx_vy`, `jp_v0_addr`,
`ld_st_vx`) have no constructor: `parse` never produces them. -/
inductive Instr where
  | cls
  | ret
  | jp (addr : Nat)
  | call (addr : Nat)
  | seB (reg value : Nat)
  | sneB (reg value : Nat)
  | seV (x y : Nat)
  | ldB (reg value : Nat)
  | addB (reg value : Nat)
  | ldV (x y : Nat)
  | andV (x y : Nat)
  | xorV (x y : Nat)
  | subV (x y : Nat)
  | shrV (x : Nat)
  | ldI (addr : Nat)
  | rnd (reg value : Nat)
  | drw (x y n : Nat)
  | skp (reg : Nat)
  | sknp (reg : Nat)
  | ldVxDt (reg : Nat)
  | ldVxK (reg : Nat)
  | ldDtVx (reg : Nat)
  | addI (reg : Nat)
  | ldF (x : Nat)
  | ldBCD (x : Nat)
  | saveRegs (maxReg : Nat)
  | restoreRegs (maxReg : Nat)
  deriving DecidableEq

/-- Operand field `x`: bits 8-11. -/
def fldX (raw : Nat) : Nat := (raw &&& 0x0f00) >>> 8

/-- Operand field `y`: bits 4-7. -/
def fldY (raw : Nat) : Nat := (raw &&& 0x00f0) >>> 4

/-- Operand field `kk`: low byte. -/
def fldKK (raw : Nat) : Nat := raw &&& 0x00ff

/-- Operand field `nnn`: low 12 bits. -/
def fldNNN (raw : Nat) : Nat := raw &&& 0x0fff

/-- Operand field `n`: low nibble. -/
def fldN (raw : Nat) : Nat := raw &&& 0x000f

/-- `instr::parse`: dispatch on the high nibble, then on the low byte or low
nibble, composing each variant's own `parse` field extraction.  The catch-all
arms `panic!("unsupported instruction: {raw}")` become `Except.error raw`:
the panic message carries exactly the raw opcode value. -/
def parse (raw : Nat) : Except Nat Instr :=
  if raw &&& 0xf000 = 0x0000 then
    if raw = 0x00e0 then .ok .cls
    else if raw = 0x00ee then .ok .ret
    else .error raw
  else if raw &&& 0xf000 = 0x1000 then .ok (.jp (fldNNN raw))
  else if raw &&& 0xf000 = 0x2000 then .ok (.call (fldNNN raw))
  else if raw &&& 0xf000 = 0x3000 then .ok (.seB (fldX raw) (fldKK raw))
  else if raw &&& 0xf000 = 0x4000 then .ok (.sneB (fldX raw) (fldKK raw))
  else if raw &&& 0xf000 = 0x5000 then .ok (.seV (fldX raw) (fldY raw))
  else if raw &&& 0xf000 = 0x6000 then .ok (.ldB (fldX raw) (fldKK raw))
  else if raw &&& 0xf000 = 0x7000 then .ok (.addB (fldX raw) (fldKK raw))
  else if raw &&& 0xf000 = 0x8000 then
    if raw &&& 0x000f = 0x0000 then .ok (.ldV (fldX raw) (fldY raw))
    else if raw &&& 0x000f = 0x0002 then .ok (.andV (fldX raw) (fldY raw))
    else if raw &&& 0x000f = 0x0003 then .ok (.xorV (fldX raw) (fldY raw))
    else if raw &&& 0x000f = 0x0005 then .ok (.subV (fldX raw) (fldY raw))
    else if raw &&& 0x000f = 0x0006 then .ok (.shrV (fldX raw))
    else .error raw
  else if raw &&& 0xf000 = 0xa000 then .ok (.ldI (fldNNN raw))
  else if raw &&& 0xf000 = 0xc000 then .ok (.rnd (fldX raw) (fldKK raw))
  else if raw &&& 0xf000 = 0xd000 then .ok (.drw (fldX raw) (fldY raw) (fldN raw))
  else if raw &&& 0xf000 = 0xe000 then
    if raw &&& 0x00ff = 0x009e then .ok (.skp (fldX raw))
    else if raw &&& 0x00ff = 0x00a1 then .ok (.sknp (fldX raw))
    else .error raw
  else if raw &&& 0xf000 = 0xf000 then
    if raw &&& 0x00ff = 0x0007 then .ok (.ldVxDt (fldX raw))
    else if raw &&& 0x00ff = 0x000a then .ok (.ldVxK (fldX raw))
    else if raw &&& 0x00ff = 0x0015 then .ok (.ldDtVx (fldX raw))
    else if raw &&& 0x00ff = 0x001e then .ok (.addI (fldX raw))
    else if raw &&& 0x00ff = 0x0029 then .ok (.ldF (fldX raw))
    else if raw &&& 0x00ff = 0x0033 then .ok (.ldBCD (fldX raw))
    else if raw &&& 0x00ff = 0x0055 then .ok (.saveRegs (fldX raw))
    else if raw &&& 0x00ff = 0x0065 then .ok (.restoreRegs (fldX raw))
    else .error raw
  else .error raw

/-- Modelled from the spec: the documented opcode table of spec section 4.2
(the canonical instruction set: 00E0, 00EE, 1nnn, 2nnn, 3xkk, 4xkk, 5xy0,
6xkk, 7xkk, 8xy0/1/2/3/4/5/6/7/E, 9xy0, Annn, Bnnn, Cxkk, Dxyn, Ex9E, ExA1,
Fx07/0A/15/18/1E/29/33/55/65).  This is the spec-side reference for claims
about undocumented bit patterns; the code-side authority is `parse`. -/
def documented (raw : Nat) : Bool :=
  raw == 0x00e0 || raw == 0x00ee ||
  raw &&& 0xf000 == 0x1000 ||
  raw &&& 0xf000 == 0x2000 ||
  raw &&& 0xf000 == 0x3000 ||
  raw &&& 0xf000 == 0x4000 ||
  (raw &&& 0xf000 == 0x5000 && raw &&& 0x000f == 0x0) ||
  raw &&& 0xf000 == 0x6000 ||
  raw &&& 0xf000 == 0x7000 ||
  (raw &&& 0xf000 == 0x8000 &&
    (raw &&& 0x000f == 0x0 || raw &&& 0x000f == 0x1 || raw &&& 0x000f == 0x2 ||
     raw &&& 0x000f == 0x3 || raw &&& 0x000f == 0x4 || raw &&& 0x000f == 0x5 ||
     raw &&& 0x000f == 0x6 || raw &&& 0x000f == 0x7 || raw &&& 0x000f == 0xe)) ||
  (raw &&& 0xf000 == 0x9000 && raw &&& 0x000f == 0x0) ||
  raw &&& 0xf000 == 0xa000 ||
  raw &&& 0xf000 == 0xb000 ||
  raw &&& 0xf000 == 0xc000 ||
  raw &&& 0xf000 == 0xd000 ||
  (raw &&& 0xf000 == 0xe000 &&
    (raw &&& 0x00ff == 0x9e || raw &&& 0x00ff == 0xa1)) ||
  (raw &&& 0xf000 == 0xf000 &&
    (raw &&& 0x00ff == 0x07 || raw &&& 0x00ff == 0x0a || raw &&& 0x00ff == 0x15 ||
     raw &&& 0x00ff == 0x18 || raw &&& 0x00ff == 0x1e || raw &&& 0x00ff == 0x29 ||
     raw &&& 0x00ff == 0x33 || raw &&& 0x00ff == 0x55 || raw &&& 0x00ff == 0x65))

/-- The 16-bit word fetched at PC by `Cpu::read_instr`:
`(mem[pc] << 8) | mem[pc+1]`. -/
def fetchWord (c : Cpu) : Nat :=
  ((c.mem.getD c.r_pc 0) <<< 8) ||| c.mem.getD (c.r_pc + 1) 0

/-- `Cls::execute`: clear the display. -/
def clsExec (c : Cpu) : Cpu := { c with display := clearDisplay }

/-- `Ret::execute`: pop the stack into PC. -/
def retExec (c : Cpu) : Option Cpu :=
  (popStack c).map (fun p => setPc p.2 p.1)

/-- `Jp::execute`: `PC := addr`. -/
def jpExec (addr : Nat) (c : Cpu) : Cpu := setPc c addr

/-- `Call::execute`: push the current PC, then `PC := addr`. -/
def callExec (addr : Nat) (c : Cpu) : Option Cpu :=
  (pushStack c c.r_pc).map (fun c1 => setPc c1 addr)

/-- `SeB::execute` (`3xkk`): skip if `Vx = kk`. -/
def seBExec (reg value : Nat) (c : Cpu) : Cpu :=
  if getVx c reg = value then incPc c else c

/-- `Sne::execute` (`4xkk`): skip if `Vx != kk`. -/
def sneBExec (reg value : Nat) (c : Cpu) : Cpu :=
  if getVx c reg ≠ value then incPc c else c

/-- `SeV::execute` (`5xy0`): skip if `Vx = Vy`. -/
def seVExec (x y : Nat) (c : Cpu) : Cpu :=
  if getVx c x = getVx c y then incPc c else c

/-- `Ld::execute` (`6xkk`): `Vx := kk`. -/
def ldBExec (reg value : Nat) (c : Cpu) : Cpu := setVx c reg value

/-- `Add::execute` (`7xkk`): `Vx := Vx.wrapping_add(kk)`. -/
def addBExec (reg value : Nat) (c : Cpu) : Cpu :=
  setVx c reg (wrapAdd8 (getVx c reg) value)

/-- `LdReg::execute` (`8xy0`): `Vx := Vy`. -/
def ldVExec (x y : Nat) (c : Cpu) : Cpu := setVx c x (getVx c y)

/-- `And::execute` (`8xy2`). -/
def andVExec (x y : Nat) (c : Cpu) : Cpu := setVx c x (getVx c x &&& getVx c y)

/-- `Xor::execute` (`8xy3`). -/
def xorVExec (x y : Nat) (c : Cpu) : Cpu := setVx c x (getVx c x ^^^ getVx c y)

/-- `Sub::execute` (`8xy5`): reads `Vx`, `Vy`, writes the not-borrow flag into
`VF`, then re-reads `Vx` and `Vy` to compute the wrapping difference —
exactly the statement order of the source. -/
def subVExec (x y : Nat) (c : Cpu) : Cpu :=
  let vx := getVx c x
  let vy := getVx c y
  let c1 := if vx > vy then setVx c 15 1 else setVx c 15 0
  setVx c1 x (wrapSub8 (getVx c1 x) (getVx c1 y))

/-- `Shr::execute` (`8xy6`): `VF := Vx & 1`, then `Vx := Vx / 2`. -/
def shrVExec (x : Nat) (c : Cpu) : Cpu :=
  let vx := getVx c x
  let c1 := if vx &&& 1 = 1 then setVx c 15 1 else setVx c 15 0
  setVx c1 x (vx / 2)

/-- `LdI::execute` (`Annn`): `I := nnn`. -/
def ldIExec (addr : Nat) (c : Cpu) : Cpu := { c with r_i := addr }

/-- `Rnd::execute` (`Cxkk`): `Vx := rndByte & kk`; the thread-local random
byte is passed explicitly. -/
def rndExec (reg value : Nat) (rndByte : Nat) (c : Cpu) : Cpu :=
  setVx c reg (rndByte % 256 &&& value)

/-- `SkpVx::execute` (`Ex9E`): skip if key `Vx` is pressed; the keyboard
lookup indexes the 16-entry key array with the raw `Vx` value. -/
def skpExec (reg : Nat) (c : Cpu) : Option Cpu :=
  (kbPressed c.keys (getVx c reg)).map (fun b => if b then incPc c else c)

/-- `SknpVx::execute` (`ExA1`): skip if key `Vx` is not pressed. -/
def sknpExec (reg : Nat) (c : Cpu) : Option Cpu :=
  (kbPressed c.keys (getVx c reg)).map (fun b => if !b then incPc c else c)

/-- `LdVxDt::execute` (`Fx07`). -/
def ldVxDtExec (reg : Nat) (c : Cpu) : Cpu := setVx c reg c.r_dt

/-- `LdVxK::execute` (`Fx0A`): delegate to `Cpu::wait_for_input`. -/
def ldVxKExec (reg : Nat) (c : Cpu) : Cpu := waitForInput c reg

/-- `LdDt::execute` (`Fx15`). -/
def ldDtVxExec (reg : Nat) (c : Cpu) : Cpu := { c with r_dt := getVx c reg }

/-- `AddI::execute` (`Fx1E`): `I := Vx + I` (u16). -/
def addIExec (reg : Nat) (c : Cpu) : Cpu :=
  { c with r_i := (getVx c reg + c.r_i) % 65536 }

/-- `LdSprite::execute` (`Fx29`): `I := Vx * 5`. -/
def ldFExec (x : Nat) (c : Cpu) : Cpu := { c with r_i := getVx c x % 256 * 5 }

/-- `LdBCD::execute` (`Fx33`): store the decimal digits of `Vx` at
`I+2`, `I+1`, `I` (in that order, as the source does). -/
def ldBCDExec (x : Nat) (c : Cpu) : Option Cpu := do
  let value := getVx c x
  let memIdx := c.r_i
  let c1 ← putMem c (memIdx + 2) (value % 10)
  let c2 ← putMem c1 (memIdx + 1) (value / 10 % 10)
  putMem c2 memIdx (value / 10 / 10 % 10)

/-- `SaveRegs::execute` (`Fx55`): `for i in 0..max_reg` store `V_i` at `I+i`.
Note the exclusive upper bound, exactly as in the source. -/
def saveRegsExec (maxReg : Nat) (c : Cpu) : Option Cpu :=
  (List.range maxReg).foldlM (fun acc i => putMem acc (acc.r_i + i) (getVx acc i)) c

/-- `RestoreRegs::execute` (`Fx65`): `for i in 0..max_reg` load `V_i` from
`I+i`.  Exclusive upper bound, as in the source. -/
def restoreRegsExec (maxReg : Nat) (c : Cpu) : Option Cpu :=
  (List.range maxReg).foldlM
    (fun acc i =>
      (readMem acc (acc.r_i + i) 1).map (fun bs => setVx acc i (bs.getD 0 0))) c

/-- One column step of `Drw::execute`'s inner loop: wrapped x coordinate,
source bit `(byte >> (7 - iter_x)) & 1`, XOR with the pixel read from the
pre-draw display `d`, collision check, and append of the pixel request. -/
def colStep (vx dy byte : Nat) (d : List (List Nat))
    (acc : List Pix × Nat) (cIdx : Nat) : List Pix × Nat :=
  let dx := (vx + cIdx) % 64
  let px := byte >>> (7 - cIdx) &&& 1
  let oldPx := getPixel d dx dy
  let newPx := oldPx ^^^ px
  (acc.1 ++ [⟨dx, dy, newPx⟩], if oldPx = 1 ∧ newPx = 0 then 1 else acc.2)

/-- One row step of `Drw::execute`'s outer loop (`enumerate` over the sprite
bytes): wrapped y coordinate, then the eight column steps. -/
def rowStep (vx vy : Nat) (bytes : List Nat) (d : List (List Nat))
    (acc : List Pix × Nat) (r : Nat) : List Pix × Nat :=
  (List.range 8).foldl (colStep vx ((vy + r) % 32) (bytes.getD r 0) d) acc

/-- The pixel-request list and collision flag computed by `Drw::execute`
before it touches the display. -/
def drwPixels (vx vy : Nat) (bytes : List Nat) (d : List (List Nat)) :
    List Pix × Nat :=
  (List.range bytes.length).foldl (rowStep vx vy bytes d) ([], 0)

/-- `Drw::execute` (`Dxyn`): read `n` sprite bytes at `I` (panicking slice
modelled as `none`), compute all pixel writes and the collision flag against
the pre-draw display, store the flag in `VF`, then draw. -/
def drwExec (x y n : Nat) (c : Cpu) : Option Cpu :=
  let vx := getVx c x
  let vy := getVx c y
  match readMem c c.r_i n with
  | none => none
  | some bytes =>
    let pv := drwPixels vx vy bytes c.display
    let c1 := setVx c 15 pv.2
    some { c1 with display := drawList c1.display pv.1 }

/-- Well-formed framebuffer: 32 rows of 64 cells (`display.rs` fixes the grid
as `[[u8; 64]; 32]`). -/
def dispWF (d : List (List Nat)) : Prop :=
  d.length = 32 ∧ ∀ row ∈ d, row.length = 64

/-- Closed form of the sprite contribution a `DRW` with register values
`vx`, `vy` and sprite data `bytes` makes at display cell `(a, b)`:
the bit drawn there, or `0` when the sprite does not touch the cell.
`(b + 32 - vy % 32) % 32` inverts the toroidal row map, and
`(a + 64 - vx % 64) % 64` the column map. -/
def spriteBit (vx vy : Nat) (bytes : List Nat) (a b : Nat) : Nat :=
  if (b + 32 - vy % 32) % 32 < bytes.length ∧ (a + 64 - vx % 64) % 64 < 8 then
    bytes.getD ((b + 32 - vy % 32) % 32) 0 >>> (7 - (a + 64 - vx % 64) % 64) &&& 1
  else 0

/-- The pixel request `colStep` appends for column `cIdx`. -/
def colPix (vx dy byte : Nat) (d : List (List Nat)) (cIdx : Nat) : Pix :=
  ⟨(vx + cIdx) % 64, dy,
   getPixel d ((vx + cIdx) % 64) dy ^^^ (byte >>> (7 - cIdx) &&& 1)⟩

/-- Whether column `cIdx` erases a set pixel (the `old_px == 1 && new_px == 0`
collision test of `Drw::execute`). -/
def colHit (vx dy byte : Nat) (d : List (List Nat)) (cIdx : Nat) : Bool :=
  decide (getPixel d ((vx + cIdx) % 64) dy = 1 ∧
          getPixel d ((vx + cIdx) % 64) dy ^^^ (byte >>> (7 - cIdx) &&& 1) = 0)

/-- The eight pixel requests produced for sprite row `r`. -/
def rowPixL (vx vy : Nat) (bytes : List Nat) (d : List (List Nat)) (r : Nat) :
    List Pix :=
  (List.range 8).map (colPix vx ((vy + r) % 32) (bytes.getD r 0) d)

/-- Whether sprite row `r` erases any set pixel. -/
def rowHit (vx vy : Nat) (bytes : List Nat) (d : List (List Nat)) (r : Nat) :
    Bool :=
  (List.range 8).any (colHit vx ((vy + r) % 32) (bytes.getD r 0) d)

/-- A sequence of nested `CALL`s, one per address in the list. -/
def callN (addrs : List Nat) (c : Cpu) : Option Cpu :=
  addrs.foldlM (fun acc a => callExec a acc) c

/-- Freshly initialised machine state (`Cpu::new`: everything zeroed, PC at
`PROGRAM_START = 0x200`, empty display, no key pressed); sprite/ROM bytes are
irrelevant to the claims and left zero. -/
def cpu0 : Cpu :=
  { r_vx := List.replicate 16 0, r_i := 0, r_dt := 0, r_st := 0,
    r_pc := 0x200, r_sp := 0, stack := List.replicate 16 0,
    mem := List.replicate 4096 0,
    display := List.replicate 32 (List.replicate 64 0),
    keys := List.replicate 16 false }

/-- State for exercising `Fx55` with `x = 0`: `V0 = 7`, `I = 100`. -/
def c2cpu : Cpu := { cpu0 with r_vx := (List.replicate 16 0).set 0 7, r_i := 100 }

/-- State for exercising `Fx65` with `x = 0`: `mem[100] = 9`, `I = 100`. -/
def c2rcpu : Cpu := { cpu0 with mem := (List.replicate 4096 0).set 100 9, r_i := 100 }

/-- State with `V0 = 5`, `VF = 3`, for `SUB V0, VF`. -/
def c3cpu : Cpu := { cpu0 with r_vx := ((List.replicate 16 0).set 0 5).set 15 3 }

/-- State with `V0 = 5`, `V1 = 3`. -/
def c3wcpu : Cpu := { cpu0 with r_vx := ((List.replicate 16 0).set 0 5).set 1 3 }

/-- State whose next fetch (at PC = 0) reads the unrecognised word `0xffff`. -/
def c7cpuA : Cpu := { cpu0 with r_pc := 0, mem := [0xff, 0xff, 0xff, 0xff] }

/-- Same memory, fetching the same word at a different PC (PC = 2). -/
def c7cpuB : Cpu := { c7cpuA with r_pc := 2 }

/-- State with `V0 = 0x10`, one beyond the highest key index. -/
def c9cpu : Cpu := { cpu0 with r_vx := (List.replicate 16 0).set 0 16 }

/-- State for a concrete `DRW V0, V1, 1`: `V0 = 8`, `V1 = 10`, `I = 80`,
`mem[80] = 0xff`. -/
def c4wcpu : Cpu :=
  { cpu0 with r_vx := ((List.replicate 16 0).set 0 8).set 1 10, r_i := 80,
              mem := (List.replicate 4096 0).set 80 0xff }

/-- Result of that draw: the `some`-branch body of `drwExec` at sprite
data `[0xff]` (the byte `readMem` returns there). -/
def c4wres : Cpu :=
  let pv := drwPixels (getVx c4wcpu 0) (getVx c4wcpu 1) [0xff] c4wcpu.display
  let c1 := setVx c4wcpu 15 pv.2
  { c1 with display := drawList c1.display pv.1 }

/-- State for a concrete wrapped draw at `(63, 31)` with a short memory. -/
def c5wcpu : Cpu :=
  { cpu0 with r_vx := ((List.replicate 16 0).set 0 63).set 1 31, r_i := 80,
              mem := (List.replicate 96 0).set 80 0xff }

/-- After the first draw. -/
def c5c1 : Cpu := (drwExec 0 1 1 c5wcpu).getD c5wcpu

/-- After the second, identical draw. -/
def c5c2 : Cpu := (drwExec 0 1 1 c5c1).getD c5c1

/-! ### List helper lemmas -/

/-- Reading the slot just written by `List.set`. -/
theorem getD_set_self {α : Type} (l : List α) (i : Nat) (v d : α)
    (h : i < l.length) : (l.set i v).getD i d = v := by
  simp [List.getD_eq_getElem?_getD, List.getElem?_set, h]

/-- Reading any other slot after `List.set`. -/
theorem getD_set_ne {α : Type} (l : List α) {i j : Nat} (v d : α)
    (h : i ≠ j) : (l.set i v).getD j d = l.getD j d := by
  simp [List.getD_eq_getElem?_getD, List.getElem?_set, h]

/-- Register read-back after a write to the same register. -/
theorem getVx_setVx_self (c : Cpu) {reg : Nat} (v : Nat)
    (h : reg < c.r_vx.length) : getVx (setVx c reg v) reg = v :=
  getD_set_self c.r_vx reg v 0 h

/-- Register read-back after a write to a different register. -/
theorem getVx_setVx_ne (c : Cpu) {r1 r2 : Nat} (v : Nat)
    (h : r1 ≠ r2) : getVx (setVx c r1 v) r2 = getVx c r2 :=
  getD_set_ne c.r_vx v 0 h

/-- A successful `read_mem` returns exactly `n` bytes. -/
theorem readMem_length {c : Cpu} {addr n : Nat} {bytes : List Nat}
    (h : readMem c addr n = some bytes) : bytes.length = n := by
  unfold readMem at h
  split at h
  · cases h
    simp only [List.length_take, List.length_drop]
    omega
  · cases h

/-- Byte `r` of a successful `read_mem` is `mem[addr + r]`. -/
theorem readMem_getD {c : Cpu} {addr n : Nat} {bytes : List Nat} {r : Nat}
    (h : readMem c addr n = some bytes) (hr : r < n) :
    bytes.getD r 0 = c.mem.getD (addr + r) 0 := by
  unfold readMem at h
  split at h
  · cases h
    simp [List.getD_eq_getElem?_getD, List.getElem?_take, List.getElem?_drop, hr]
  · cases h

/-! ### Claim theorems -/

/-- C1: the seven canonical opcodes left as TODO stubs in `instr.rs`
(`8xy1` OR, `8xy4` carry-ADD, `8xy7` SUBN, `8xyE` SHL, `9xy0` SNE Vx,Vy,
`Bnnn` JP V0,addr, `Fx18` LD ST,Vx) are all rejected by the decoder with the
`unsupported instruction` panic, contradicting the claim that the decoder
accepts every canonical pattern and executes its documented transition. -/
theorem c1_stubbed_opcodes_are_decode_errors :
    parse 0x8121 = .error 0x8121 ∧ parse 0x8124 = .error 0x8124 ∧
    parse 0x8127 = .error 0x8127 ∧ parse 0x812e = .error 0x812e ∧
    parse 0x9120 = .error 0x9120 ∧ parse 0xb123 = .error 0xb123 ∧
    parse 0xf118 = .error 0xf118 :=
  ⟨rfl, rfl, rfl, rfl, rfl, rfl, rfl⟩

/-- C2: `LD [I],Vx` with `x = 0` writes nothing at all (the loop bound is
exclusive), leaving `mem[I]` at its old value `0` even though `V0 = 7`; the
claim requires `V0` to be stored at `I`.  Likewise `LD Vx,[I]` with `x = 0`
loads nothing: `V0` stays `0` even though `mem[I] = 9`. -/
theorem c2_save_restore_exclusive_bound :
    (saveRegsExec 0 c2cpu).map (fun c => c.mem.getD 100 0) = some 0 ∧
    getVx c2cpu 0 = 7 ∧ c2cpu.r_i = 100 ∧
    (restoreRegsExec 0 c2rcpu).map (fun c => getVx c 0) = some 0 ∧
    c2rcpu.mem.getD 100 0 = 9 ∧ c2rcpu.r_i = 100 :=
  ⟨rfl, rfl, rfl, rfl, by decide, rfl⟩

/-- C3 counterexample: `SUB V0, VF` with `V0 = 5`, `VF = 3` leaves `V0 = 4`,
not `(5 - 3) mod 256 = 2`: the flag write to `VF` happens before the
subtraction re-reads its operands. -/
theorem c3_sub_counterexample :
    getVx (subVExec 0 15 c3cpu) 0 = 4 ∧ (5 + 256 - 3) % 256 = 2 ∧
    getVx (subVExec 0 15 c3cpu) 0 ≠ (5 + 256 - 3) % 256 :=
  ⟨by decide, by decide, by decide⟩

/-- C3 (amended): for registers other than `VF` itself, `SUB Vx,Vy` leaves
`Vx = (a - b) mod 256` and `VF = 1` iff `a > b`, for all 8-bit operand
values `a = Vx`, `b = Vy`. -/
theorem c3_sub_amended (c : Cpu) (x y : Nat) (hx15 : x ≠ 15) (hy15 : y ≠ 15)
    (hlen : c.r_vx.length = 16) (hxl : x < 16)
    (ha : getVx c x < 256) (hb : getVx c y < 256) :
    getVx (subVExec x y c) x = (getVx c x + 256 - getVx c y) % 256 ∧
    getVx (subVExec x y c) 15 = if getVx c x > getVx c y then 1 else 0 := by
  have hstep : subVExec x y c =
      setVx (setVx c 15 (if getVx c x > getVx c y then 1 else 0)) x
        (wrapSub8 (getVx c x) (getVx c y)) := by
    simp only [subVExec]
    by_cases hgt : getVx c x > getVx c y
    · simp only [if_pos hgt]
      rw [getVx_setVx_ne _ _ (Ne.symm hx15), getVx_setVx_ne _ _ (Ne.symm hy15)]
    · simp only [if_neg hgt]
      rw [getVx_setVx_ne _ _ (Ne.symm hx15), getVx_setVx_ne _ _ (Ne.symm hy15)]
  rw [hstep]
  refine ⟨?_, ?_⟩
  · rw [getVx_setVx_self _ _ (by simp [setVx, hlen]; omega)]
    unfold wrapSub8
    omega
  · rw [getVx_setVx_ne _ _ hx15,
        getVx_setVx_self _ _ (by rw [hlen]; omega)]

/-- C3 witness: the amended statement at `x = 0`, `y = 1`, `V0 = 5`, `V1 = 3`. -/
theorem c3_sub_amended_witness :
    getVx (subVExec 0 1 c3wcpu) 0 = (getVx c3wcpu 0 + 256 - getVx c3wcpu 1) % 256 ∧
    getVx (subVExec 0 1 c3wcpu) 15 = if getVx c3wcpu 0 > getVx c3wcpu 1 then 1 else 0 :=
  c3_sub_amended c3wcpu 0 1 (by decide) (by decide) (by decide) (by decide)
    (by decide) (by decide)

/-- C9: `SKP V0` and `SKNP V0` with `V0 = 0x10` index the 16-entry key array
out of bounds — a fatal panic (`none`), not a total, well-defined lookup. -/
theorem c9_key_lookup_out_of_bounds :
    skpExec 0 c9cpu = none ∧ sknpExec 0 c9cpu = none ∧ getVx c9cpu 0 = 0x10 :=
  ⟨by decide, by decide, by decide⟩

/-- C6: with the stack pointer at most 14 (so the push stores inside the
16-entry stack and the pop stays above 0), `CALL addr` immediately followed
by `RET` restores both the PC (to its post-fetch value, the one `CALL`
pushed) and the stack pointer. -/
theorem c6_call_ret_roundtrip (c : Cpu) (addr : Nat)
    (hlen : c.stack.length = 16) (hsp : c.r_sp ≤ 14) :
    ((callExec addr c).bind retExec).map (fun c2 => (c2.r_pc, c2.r_sp)) =
      some (c.r_pc, c.r_sp) := by
  have hsp1 : (c.r_sp + 1) % 256 = c.r_sp + 1 := Nat.mod_eq_of_lt (by omega)
  simp only [callExec, pushStack, hsp1, setPc]
  rw [if_pos (show c.r_sp + 1 < 16 by omega)]
  simp only [Option.map_some', Option.some_bind, retExec, popStack]
  rw [if_neg (by simp; omega)]
  simp only [Option.map_some']
  rw [getD_set_self _ _ _ _ (by omega)]
  simp [setPc]

/-- C6 witness: the round trip at the freshly initialised state. -/
theorem c6_call_ret_roundtrip_witness :
    ((callExec 0x300 cpu0).bind retExec).map (fun c2 => (c2.r_pc, c2.r_sp)) =
      some (cpu0.r_pc, cpu0.r_sp) :=
  c6_call_ret_roundtrip cpu0 0x300 (by decide) (by decide)

/-- C8: `LD Vx,K` with no key pressed reverts PC by one instruction (2 bytes)
and leaves `Vx` unchanged; with at least one key pressed it stores a pressed
key's index in `Vx` and leaves PC unchanged. -/
theorem c8_ld_vx_k_wait (c : Cpu) (reg : Nat) (hreg : reg < 16)
    (hlen : c.r_vx.length = 16) (hpc2 : 2 ≤ c.r_pc) (hpcU : c.r_pc < 65536) :
    ((∀ i, i < 16 → c.keys.getD i false = false) →
        (ldVxKExec reg c).r_pc = c.r_pc - 2 ∧
        getVx (ldVxKExec reg c) reg = getVx c reg) ∧
    (∀ i, i < 16 → c.keys.getD i false = true →
        ∃ j, j < 16 ∧ c.keys.getD j false = true ∧
          getVx (ldVxKExec reg c) reg = j ∧ (ldVxKExec reg c).r_pc = c.r_pc) := by
  cases hfp : firstPressed c.keys with
  | none =>
    have hfp' := hfp
    unfold firstPressed at hfp'
    rw [List.find?_eq_none] at hfp'
    have hnone : ∀ i, i < 16 → c.keys.getD i false = false := by
      intro i hi
      have h2 := hfp' i (List.mem_range.mpr hi)
      simp only [Bool.not_eq_true] at h2
      exact h2
    have hexec : ldVxKExec reg c = decPc c := by
      unfold ldVxKExec waitForInput
      rw [hfp]
    constructor
    · intro _
      constructor
      · rw [hexec]
        simp only [decPc, setPc]
        omega
      · rw [hexec]
        simp only [getVx, decPc, setPc]
    · intro i hi hkey
      rw [hnone i hi] at hkey
      exact absurd hkey (by simp)
  | some j =>
    have hfp' := hfp
    unfold firstPressed at hfp'
    have hj16 : j < 16 := List.mem_range.mp (List.mem_of_find?_eq_some hfp')
    have hjk : c.keys.getD j false = true := by
      have h3 := List.find?_some hfp'
      exact h3
    have hexec : ldVxKExec reg c = setVx c reg j := by
      unfold ldVxKExec waitForInput
      rw [hfp]
    constructor
    · intro hall
      rw [hall j hj16] at hjk
      exact absurd hjk (by simp)
    · intro i hi hkey
      refine ⟨j, hj16, hjk, ?_, ?_⟩
      · rw [hexec]
        exact getVx_setVx_self c _ (by omega)
      · rw [hexec]
        rfl

/-- C8 witness: freshly initialised state, no key pressed. -/
theorem c8_ld_vx_k_wait_witness :
    ((∀ i, i < 16 → cpu0.keys.getD i false = false) →
        (ldVxKExec 3 cpu0).r_pc = cpu0.r_pc - 2 ∧
        getVx (ldVxKExec 3 cpu0) 3 = getVx cpu0 3) ∧
    (∀ i, i < 16 → cpu0.keys.getD i false = true →
        ∃ j, j < 16 ∧ cpu0.keys.getD j false = true ∧
          getVx (ldVxKExec 3 cpu0) 3 = j ∧ (ldVxKExec 3 cpu0).r_pc = cpu0.r_pc) :=
  c8_ld_vx_k_wait cpu0 3 (by decide) (by decide) (by decide) (by decide)

/-- Effect of a sequence of nested `CALL`s starting anywhere in the stack:
the stack pointer advances by the number of calls, slots at or below the
initial stack pointer are untouched, and the freshly filled slots hold the
successive pushed PC values. -/
theorem callN_spec (addrs : List Nat) : ∀ (c : Cpu), c.stack.length = 16 →
    c.r_sp + addrs.length ≤ 15 →
    ∃ c', callN addrs c = some c' ∧
      c'.r_sp = c.r_sp + addrs.length ∧ c'.stack.length = 16 ∧
      (∀ j, j ≤ c.r_sp → c'.stack.getD j 0 = c.stack.getD j 0) ∧
      (∀ j, j < addrs.length →
        c'.stack.getD (c.r_sp + 1 + j) 0 = (c.r_pc :: addrs).getD j 0) := by
  induction addrs with
  | nil =>
    intro c hlen hb
    exact ⟨c, rfl, by simp, hlen, fun j _ => rfl, fun j hj => absurd hj (by simp)⟩
  | cons a rest ih =>
    intro c hlen hb
    have hblen : rest.length + 1 = (a :: rest).length := by simp
    have hsp1 : (c.r_sp + 1) % 256 = c.r_sp + 1 := Nat.mod_eq_of_lt (by
      simp only [List.length_cons] at hb; omega)
    obtain ⟨c1, hc1⟩ : ∃ c1 : Cpu,
        c1 = { c with
               r_pc := a, r_sp := c.r_sp + 1,
               stack := c.stack.set (c.r_sp + 1) c.r_pc } := ⟨_, rfl⟩
    have hcall : callExec a c = some c1 := by
      rw [hc1]
      simp only [callExec, pushStack, hsp1, setPc]
      rw [if_pos (show c.r_sp + 1 < 16 by
        simp only [List.length_cons] at hb; omega)]
      simp only [Option.map_some']
    have hlen1 : c1.stack.length = 16 := by simp [hc1, List.length_set, hlen]
    have hb1 : c1.r_sp + rest.length ≤ 15 := by
      simp only [hc1]
      simp only [List.length_cons] at hb
      omega
    obtain ⟨c', hcn, hsp', hstlen, hpres, hnew⟩ := ih c1 hlen1 hb1
    refine ⟨c', ?_, ?_, hstlen, ?_, ?_⟩
    · simp only [callN, List.foldlM_cons, hcall, Option.some_bind]
      simpa [callN] using hcn
    · rw [hsp']
      simp only [hc1, List.length_cons]
      omega
    · intro j hj
      rw [hpres j (by simp [hc1]; omega)]
      simp only [hc1]
      exact getD_set_ne _ _ _ (by omega)
    · intro j hj
      cases j with
      | zero =>
        rw [show c.r_sp + 1 + 0 = c.r_sp + 1 by omega,
            hpres (c.r_sp + 1) (by simp [hc1])]
        simp only [hc1, List.getD_cons_zero]
        exact getD_set_self _ _ _ _ (by omega)
      | succ k =>
        rw [show c.r_sp + 1 + (k + 1) = c1.r_sp + 1 + k by simp [hc1]; omega,
            hnew k (by simp only [List.length_cons] at hj; omega)]
        simp [hc1]

/-- C10: from the initial state (SP = 0), after `k <= 15` nested `CALL`s the
stack pointer equals `k`, slot 0 was never written, and slots `1..k` hold the
successively pushed return PCs; when SP has reached 15 one more push indexes
slot 16 of the 16-entry stack and is a fatal error, and a pop with SP = 0
underflows the stack pointer (fatal). -/
theorem c10_stack_discipline (c : Cpu) (addrs : List Nat)
    (h0 : c.r_sp = 0) (hlen : c.stack.length = 16) (hk : addrs.length ≤ 15) :
    ∃ c', callN addrs c = some c' ∧ c'.r_sp = addrs.length ∧
      c'.stack.getD 0 0 = c.stack.getD 0 0 ∧
      (∀ j, j < addrs.length → c'.stack.getD (j + 1) 0 = (c.r_pc :: addrs).getD j 0) ∧
      (c'.r_sp = 15 → ∀ v, pushStack c' v = none) ∧
      (∀ d : Cpu, d.r_sp = 0 → popStack d = none) := by
  obtain ⟨c', h1, h2, h3, h4, h5⟩ := callN_spec addrs c hlen (by omega)
  refine ⟨c', h1, by omega, h4 0 (by omega), ?_, ?_, ?_⟩
  · intro j hj
    have := h5 j hj
    rwa [show c.r_sp + 1 + j = j + 1 by omega] at this
  · intro hsp15 v
    simp [pushStack, hsp15]
  · intro d hd
    simp [popStack, hd]

/-- C10 witness: two nested calls from the initial state. -/
theorem c10_stack_discipline_witness :
    ∃ c', callN [0x300, 0x400] cpu0 = some c' ∧ c'.r_sp = [0x300, 0x400].length ∧
      c'.stack.getD 0 0 = cpu0.stack.getD 0 0 ∧
      (∀ j, j < [0x300, 0x400].length →
        c'.stack.getD (j + 1) 0 = (cpu0.r_pc :: [0x300, 0x400]).getD j 0) ∧
      (c'.r_sp = 15 → ∀ v, pushStack c' v = none) ∧
      (∀ d : Cpu, d.r_sp = 0 → popStack d = none) :=
  c10_stack_discipline cpu0 [0x300, 0x400] (by decide) (by decide) (by decide)

/-- C7 counterexample: the claim fails in two ways.  First, `0x5001` is not
in the documented table (only `5xy0` is documented), yet the decoder silently
accepts it as `SE V0, V0` — the `0x5000` arm never checks the low nibble.
Second, the decode diagnostic does not carry the PC: fetching the same
unrecognised word `0xffff` at two different PCs yields the identical
diagnostic payload (just the raw value). -/
theorem c7_decode_error_counterexample :
    parse 0x5001 = .ok (.seV 0 0) ∧ documented 0x5001 = false ∧
    parse (fetchWord c7cpuA) = .error 0xffff ∧
    parse (fetchWord c7cpuB) = .error 0xffff ∧
    c7cpuA.r_pc ≠ c7cpuB.r_pc := by
  refine ⟨rfl, by decide, ?_, ?_, by decide⟩
  · rw [show fetchWord c7cpuA = 0xffff from by decide]
    rfl
  · rw [show fetchWord c7cpuB = 0xffff from by decide]
    rfl

/-- C7 (amended): every 16-bit pattern outside the documented opcode table,
except the `5xyk` words with `k` nonzero (which decode as `SE Vx,Vy`,
ignoring the low nibble), is a fatal decode error whose diagnostic carries
the raw opcode value; the PC is not part of the diagnostic. -/
theorem c7_undocumented_rejected (raw : Nat) (hdoc : documented raw = false)
    (h5 : raw &&& 0xf000 ≠ 0x5000) : parse raw = .error raw := by
  unfold parse
  by_cases h0 : raw &&& 0xf000 = 0x0000
  · rw [if_pos h0, if_neg (show ¬ raw = 0x00e0 by
      intro h; simp [documented, h] at hdoc),
      if_neg (show ¬ raw = 0x00ee by
      intro h; simp [documented, h] at hdoc)]
  rw [if_neg h0]
  by_cases h1 : raw &&& 0xf000 = 0x1000
  · simp [documented, h1] at hdoc
  rw [if_neg h1]
  by_cases h2 : raw &&& 0xf000 = 0x2000
  · simp [documented, h2] at hdoc
  rw [if_neg h2]
  by_cases h3 : raw &&& 0xf000 = 0x3000
  · simp [documented, h3] at hdoc
  rw [if_neg h3]
  by_cases h4 : raw &&& 0xf000 = 0x4000
  · simp [documented, h4] at hdoc
  rw [if_neg h4, if_neg h5]
  by_cases h6 : raw &&& 0xf000 = 0x6000
  · simp [documented, h6] at hdoc
  rw [if_neg h6]
  by_cases h7 : raw &&& 0xf000 = 0x7000
  · simp [documented, h7] at hdoc
  rw [if_neg h7]
  by_cases h8 : raw &&& 0xf000 = 0x8000
  · rw [if_pos h8,
      if_neg (show ¬ raw &&& 0x000f = 0x0000 by
        intro h; simp [documented, h8, h] at hdoc),
      if_neg (show ¬ raw &&& 0x000f = 0x0002 by
        intro h; simp [documented, h8, h] at hdoc),
      if_neg (show ¬ raw &&& 0x000f = 0x0003 by
        intro h; simp [documented, h8, h] at hdoc),
      if_neg (show ¬ raw &&& 0x000f = 0x0005 by
        intro h; simp [documented, h8, h] at hdoc),
      if_neg (show ¬ raw &&& 0x000f = 0x0006 by
        intro h; simp [documented, h8, h] at hdoc)]
  rw [if_neg h8]
  by_cases ha : raw &&& 0xf000 = 0xa000
  · simp [documented, ha] at hdoc
  rw [if_neg ha]
  by_cases hc : raw &&& 0xf000 = 0xc000
  · simp [documented, hc] at hdoc
  rw [if_neg hc]
  by_cases hd : raw &&& 0xf000 = 0xd000
  · simp [documented, hd] at hdoc
  rw [if_neg hd]
  by_cases he : raw &&& 0xf000 = 0xe000
  · rw [if_pos he,
      if_neg (show ¬ raw &&& 0x00ff = 0x009e by
        intro h; simp [documented, he, h] at hdoc),
      if_neg (show ¬ raw &&& 0x00ff = 0x00a1 by
        intro h; simp [documented, he, h] at hdoc)]
  rw [if_neg he]
  by_cases hf : raw &&& 0xf000 = 0xf000
  · rw [if_pos hf,
      if_neg (show ¬ raw &&& 0x00ff = 0x0007 by
        intro h; simp [documented, hf, h] at hdoc),
      if_neg (show ¬ raw &&& 0x00ff = 0x000a by
        intro h; simp [documented, hf, h] at hdoc),
      if_neg (show ¬ raw &&& 0x00ff = 0x0015 by
        intro h; simp [documented, hf, h] at hdoc),
      if_neg (show ¬ raw &&& 0x00ff = 0x001e by
        intro h; simp [documented, hf, h] at hdoc),
      if_neg (show ¬ raw &&& 0x00ff = 0x0029 by
        intro h; simp [documented, hf, h] at hdoc),
      if_neg (show ¬ raw &&& 0x00ff = 0x0033 by
        intro h; simp [documented, hf, h] at hdoc),
      if_neg (show ¬ raw &&& 0x00ff = 0x0055 by
        intro h; simp [documented, hf, h] at hdoc),
      if_neg (show ¬ raw &&& 0x00ff = 0x0065 by
        intro h; simp [documented, hf, h] at hdoc)]
  rw [if_neg hf]

/-- C7 witness: the amended statement at the undocumented word `0xffff`. -/
theorem c7_undocumented_rejected_witness : parse 0xffff = .error 0xffff :=
  c7_undocumented_rejected 0xffff (by decide) (by decide)

/-! ### Draw (`DRW`) machinery -/

/-- Characterisation of the inner column loop of `Drw::execute`: it appends
the eight pixel requests of the row and raises the collision accumulator to
1 exactly when some column erases a set pixel. -/
theorem col_loop (vx dy byte : Nat) (d : List (List Nat)) :
    ∀ (m : Nat) (acc : List Pix × Nat),
    (List.range m).foldl (colStep vx dy byte d) acc =
    (acc.1 ++ (List.range m).map (colPix vx dy byte d),
     if (List.range m).any (colHit vx dy byte d) then 1 else acc.2) := by
  intro m
  induction m with
  | zero => intro acc; simp
  | succ k ih =>
    intro acc
    rw [List.range_succ, List.foldl_append, List.map_append, List.any_append, ih]
    simp only [List.foldl_cons, List.foldl_nil, List.map_cons, List.map_nil,
      List.any_cons, List.any_nil, Bool.or_false]
    refine Prod.ext ?_ ?_
    · show (acc.1 ++ (List.range k).map (colPix vx dy byte d)) ++
          [colPix vx dy byte d k] = _
      rw [List.append_assoc]
    · show (if getPixel d ((vx + k) % 64) dy = 1 ∧
          getPixel d ((vx + k) % 64) dy ^^^ (byte >>> (7 - k) &&& 1) = 0 then 1
        else if (List.range k).any (colHit vx dy byte d) = true then 1
        else acc.2) = _
      by_cases hP : getPixel d ((vx + k) % 64) dy = 1 ∧
          getPixel d ((vx + k) % 64) dy ^^^ (byte >>> (7 - k) &&& 1) = 0
      · rw [if_pos hP, show colHit vx dy byte d k = true from decide_eq_true hP,
          Bool.or_true, if_pos rfl]
      · rw [if_neg hP, show colHit vx dy byte d k = false from decide_eq_false hP,
          Bool.or_false]

/-- Characterisation of the outer row loop of `Drw::execute`. -/
theorem row_loop (vx vy : Nat) (bytes : List Nat) (d : List (List Nat)) :
    ∀ (m : Nat) (acc : List Pix × Nat),
    (List.range m).foldl (rowStep vx vy bytes d) acc =
    (acc.1 ++ (List.range m).flatMap (rowPixL vx vy bytes d),
     if (List.range m).any (rowHit vx vy bytes d) then 1 else acc.2) := by
  intro m
  induction m with
  | zero => intro acc; simp
  | succ k ih =>
    intro acc
    rw [List.range_succ, List.foldl_append, List.flatMap_append, List.any_append, ih]
    simp only [List.foldl_cons, List.foldl_nil, List.flatMap_cons, List.flatMap_nil,
      List.append_nil, List.any_cons, List.any_nil, Bool.or_false]
    unfold rowStep
    rw [col_loop]
    refine Prod.ext ?_ ?_
    · show (acc.1 ++ (List.range k).flatMap (rowPixL vx vy bytes d)) ++
          (List.range 8).map (colPix vx ((vy + k) % 32) (bytes.getD k 0) d) = _
      rw [List.append_assoc]
      rfl
    · show (if (List.range 8).any (colHit vx ((vy + k) % 32) (bytes.getD k 0) d) = true
          then 1
        else if (List.range k).any (rowHit vx vy bytes d) = true then 1
        else acc.2) = _
      cases hP : (List.range 8).any (colHit vx ((vy + k) % 32) (bytes.getD k 0) d) with
      | true =>
        rw [if_pos rfl, show rowHit vx vy bytes d k = true from hP, Bool.or_true,
          if_pos rfl]
      | false =>
        rw [if_neg (by simp), show rowHit vx vy bytes d k = false from hP,
          Bool.or_false]

/-- Closed form of the pixel list and collision flag of `Drw::execute`. -/
theorem drwPixels_eq (vx vy : Nat) (bytes : List Nat) (d : List (List Nat)) :
    drwPixels vx vy bytes d =
    ((List.range bytes.length).flatMap (rowPixL vx vy bytes d),
     if (List.range bytes.length).any (rowHit vx vy bytes d) then 1 else 0) := by
  unfold drwPixels
  rw [row_loop]
  rfl

/-- `Display::draw` over a concatenation is sequential drawing. -/
theorem drawList_append (d : List (List Nat)) (l l' : List Pix) :
    drawList d (l ++ l') = drawList (drawList d l) l' :=
  List.foldl_append _ _ _ _

/-- A row fetched with `getD` from inside the grid is a member of the grid. -/
theorem getD_mem_of_lt (d : List (List Nat)) (y : Nat) (hy : y < d.length) :
    d.getD y [] ∈ d := by
  rw [List.getD_eq_getElem?_getD, List.getElem?_eq_getElem hy]
  simp only [Option.getD_some]
  exact List.getElem_mem hy

/-- Reading any cell after one in-bounds pixel store. -/
theorem getPixel_setPixel (d : List (List Nat)) (hwf : dispWF d)
    (x y v a b : Nat) (hx : x < 64) (hy : y < 32) :
    getPixel (setPixel d x y v) a b =
      if a = x ∧ b = y then v else getPixel d a b := by
  obtain ⟨hlen, hrows⟩ := hwf
  have hylen : y < d.length := by omega
  have hrowlen : (d.getD y []).length = 64 := hrows _ (getD_mem_of_lt d y hylen)
  unfold getPixel setPixel
  by_cases hb : b = y
  · subst hb
    rw [getD_set_self _ _ _ _ hylen]
    by_cases hax : a = x
    · subst hax
      rw [getD_set_self _ _ _ _ (by omega)]
      simp
    · rw [getD_set_ne _ _ _ (fun h => hax h.symm)]
      simp [hax]
  · rw [getD_set_ne _ _ _ (fun h => hb h.symm)]
    simp [hb]

/-- One pixel store preserves the 32x64 grid shape. -/
theorem dispWF_setPixel (d : List (List Nat)) (hwf : dispWF d) (x y v : Nat) :
    dispWF (setPixel d x y v) := by
  obtain ⟨hlen, hrows⟩ := hwf
  by_cases hy : y < d.length
  · refine ⟨by simp [setPixel, hlen], ?_⟩
    intro row hrow
    unfold setPixel at hrow
    rcases List.mem_or_eq_of_mem_set hrow with h | h
    · exact hrows _ h
    · subst h
      rw [List.length_set]
      exact hrows _ (getD_mem_of_lt d y hy)
  · unfold setPixel
    rw [List.set_eq_of_length_le (by omega)]
    exact ⟨hlen, hrows⟩

/-- `Display::draw` preserves the 32x64 grid shape. -/
theorem dispWF_drawList (ps : List Pix) : ∀ (d : List (List Nat)), dispWF d →
    dispWF (drawList d ps) := by
  induction ps with
  | nil => intro d h; exact h
  | cons p ps ih =>
    intro d h
    show dispWF (drawList (setPixel d p.x p.y p.value) ps)
    exact ih _ (dispWF_setPixel d h p.x p.y p.value)

/-- Cell-level effect of drawing one sprite row: the cells on line `dy` whose
column inverse lies below `m` receive the XOR of the pre-draw pixel with the
corresponding source bit; everything else keeps the target's value. -/
theorem draw_row_cell (vx dy byte : Nat) (d : List (List Nat)) :
    ∀ (m : Nat), m ≤ 8 → ∀ (t : List (List Nat)), dispWF t →
    ∀ (a b : Nat), a < 64 → b < 32 → dy < 32 →
    getPixel (drawList t ((List.range m).map (colPix vx dy byte d))) a b =
    if b = dy ∧ (a + 64 - vx % 64) % 64 < m then
      getPixel d a b ^^^ (byte >>> (7 - (a + 64 - vx % 64) % 64) &&& 1)
    else getPixel t a b := by
  intro m
  induction m with
  | zero =>
    intro _ t hwt a b ha hb hdy
    rw [if_neg (by omega)]
    rfl
  | succ k ih =>
    intro hk t hwt a b ha hb hdy
    rw [List.range_succ, List.map_append, drawList_append]
    simp only [List.map_cons, List.map_nil]
    rw [show drawList (drawList t ((List.range k).map (colPix vx dy byte d)))
          [colPix vx dy byte d k] =
        setPixel (drawList t ((List.range k).map (colPix vx dy byte d)))
          ((vx + k) % 64) dy
          (getPixel d ((vx + k) % 64) dy ^^^ (byte >>> (7 - k) &&& 1)) from rfl]
    rw [getPixel_setPixel _ (dispWF_drawList _ t hwt) _ _ _ a b
      (Nat.mod_lt _ (by omega)) hdy]
    rw [ih (by omega) t hwt a b ha hb hdy]
    by_cases hc1 : a = (vx + k) % 64 ∧ b = dy
    · obtain ⟨ha1, hb1⟩ := hc1
      have hcol : (a + 64 - vx % 64) % 64 = k := by omega
      rw [if_pos ⟨ha1, hb1⟩, hcol, if_pos ⟨hb1, Nat.lt_succ_self k⟩, ← ha1, ← hb1]
    · rw [if_neg hc1]
      by_cases hc2 : b = dy ∧ (a + 64 - vx % 64) % 64 < k
      · rw [if_pos hc2, if_pos ⟨hc2.1, by omega⟩]
      · rw [if_neg hc2, if_neg (by
          rintro ⟨hbdy, hlt⟩
          rcases Nat.lt_succ_iff_lt_or_eq.mp hlt with h | h
          · exact hc2 ⟨hbdy, h⟩
          · exact hc1 ⟨by omega, hbdy⟩)]

/-- Cell-level effect of drawing the first `m` sprite rows (rows occupy
distinct display lines because `m ≤ 32`). -/
theorem draw_rows_cell (vx vy : Nat) (bytes : List Nat) (d : List (List Nat)) :
    ∀ (m : Nat), m ≤ 32 → ∀ (t : List (List Nat)), dispWF t →
    ∀ (a b : Nat), a < 64 → b < 32 →
    getPixel (drawList t ((List.range m).flatMap (rowPixL vx vy bytes d))) a b =
    if (b + 32 - vy % 32) % 32 < m ∧ (a + 64 - vx % 64) % 64 < 8 then
      getPixel d a b ^^^
        (bytes.getD ((b + 32 - vy % 32) % 32) 0 >>>
          (7 - (a + 64 - vx % 64) % 64) &&& 1)
    else getPixel t a b := by
  intro m
  induction m with
  | zero =>
    intro _ t hwt a b ha hb
    rw [if_neg (by omega)]
    rfl
  | succ k ih =>
    intro hk t hwt a b ha hb
    rw [List.range_succ, List.flatMap_append, drawList_append]
    simp only [List.flatMap_cons, List.flatMap_nil, List.append_nil]
    rw [show rowPixL vx vy bytes d k =
        (List.range 8).map (colPix vx ((vy + k) % 32) (bytes.getD k 0) d) from rfl]
    rw [draw_row_cell vx ((vy + k) % 32) (bytes.getD k 0) d 8 (le_refl 8) _
      (dispWF_drawList _ t hwt) a b ha hb (Nat.mod_lt _ (by omega))]
    rw [ih (by omega) t hwt a b ha hb]
    by_cases hc1 : b = (vy + k) % 32 ∧ (a + 64 - vx % 64) % 64 < 8
    · have hrow : (b + 32 - vy % 32) % 32 = k := by omega
      rw [if_pos hc1, hrow, if_pos ⟨Nat.lt_succ_self k, hc1.2⟩]
    · rw [if_neg hc1]
      by_cases hc2 : (b + 32 - vy % 32) % 32 < k ∧ (a + 64 - vx % 64) % 64 < 8
      · rw [if_pos hc2, if_pos ⟨by omega, hc2.2⟩]
      · rw [if_neg hc2, if_neg (by
          rintro ⟨hlt, hcol⟩
          rcases Nat.lt_succ_iff_lt_or_eq.mp hlt with h | h
          · exact hc2 ⟨h, hcol⟩
          · exact hc1 ⟨by omega, hcol⟩)]

/-- Components of a successful `Drw::execute`: display drawn from the
pre-draw pixel list, memory and `I` untouched, `VF` overwritten. -/
theorem drwExec_display {x y n : Nat} {c c' : Cpu} {bytes : List Nat}
    (hrm : readMem c c.r_i n = some bytes)
    (hex : drwExec x y n c = some c') :
    c'.display =
      drawList c.display (drwPixels (getVx c x) (getVx c y) bytes c.display).1 ∧
    c'.mem = c.mem ∧ c'.r_i = c.r_i ∧
    c'.r_vx = c.r_vx.set 15 (drwPixels (getVx c x) (getVx c y) bytes c.display).2 := by
  unfold drwExec at hex
  rw [hrm] at hex
  cases hex
  exact ⟨rfl, rfl, rfl, rfl⟩

/-- Closed form of one `DRW` at any display cell: the new pixel is the XOR of
the old pixel with the sprite's contribution at that cell. -/
theorem drw_cell {x y n : Nat} {c c' : Cpu} {bytes : List Nat}
    (hwf : dispWF c.display) (hn : bytes.length ≤ 32)
    (hrm : readMem c c.r_i n = some bytes)
    (hex : drwExec x y n c = some c')
    (a b : Nat) (ha : a < 64) (hb : b < 32) :
    getPixel c'.display a b =
      getPixel c.display a b ^^^ spriteBit (getVx c x) (getVx c y) bytes a b := by
  obtain ⟨hd, -, -, -⟩ := drwExec_display hrm hex
  rw [hd]
  rw [show (drwPixels (getVx c x) (getVx c y) bytes c.display).1 =
      (List.range bytes.length).flatMap
        (rowPixL (getVx c x) (getVx c y) bytes c.display) from by
    rw [drwPixels_eq]]
  rw [draw_rows_cell (getVx c x) (getVx c y) bytes c.display bytes.length hn
    c.display hwf a b ha hb]
  unfold spriteBit
  by_cases hcond : (b + 32 - getVx c y % 32) % 32 < bytes.length ∧
      (a + 64 - getVx c x % 64) % 64 < 8
  · rw [if_pos hcond, if_pos hcond]
  · rw [if_neg hcond, if_neg hcond]
    exact (Nat.xor_zero _).symm

/-- The collision flag stored in `VF` by one `DRW`. -/
theorem drw_vf {x y n : Nat} {c c' : Cpu} {bytes : List Nat}
    (hvlen : c.r_vx.length = 16)
    (hrm : readMem c c.r_i n = some bytes)
    (hex : drwExec x y n c = some c') :
    getVx c' 15 = if (List.range bytes.length).any
        (rowHit (getVx c x) (getVx c y) bytes c.display) then 1 else 0 := by
  obtain ⟨-, -, -, hvx⟩ := drwExec_display hrm hex
  unfold getVx
  rw [hvx, getD_set_self _ _ _ _ (by omega)]
  rw [show (drwPixels (getVx c x) (getVx c y) bytes c.display).2 =
      (if (List.range bytes.length).any
        (rowHit (getVx c x) (getVx c y) bytes c.display) then 1 else 0) from by
    rw [drwPixels_eq]]
  rfl

/-- C4: with `I + n <= 4096` (and the fixed 4096-byte memory and 64x32
framebuffer), `DRW Vx,Vy,n` reads the `n` sprite bytes at `I` and, for every
row `r < n` and column `cc < 8`, writes framebuffer cell
`((Vx + cc) mod 64, (Vy + r) mod 32)` to the XOR of its pre-draw value with
bit `7 - cc` of byte `r`; and it sets `VF` to 1 exactly when some pixel of
the sprite turns a set pixel off, else to 0. -/
theorem c4_drw_semantics (c c' : Cpu) (x y n r cc : Nat)
    (hwf : dispWF c.display) (hvlen : c.r_vx.length = 16)
    (hml : c.mem.length = 4096) (hI : c.r_i + n ≤ 4096)
    (hn : n < 16) (hr : r < n) (hcc : cc < 8)
    (hex : drwExec x y n c = some c') :
    (getPixel c'.display ((getVx c x + cc) % 64) ((getVx c y + r) % 32) =
      getPixel c.display ((getVx c x + cc) % 64) ((getVx c y + r) % 32) ^^^
        (c.mem.getD (c.r_i + r) 0 >>> (7 - cc) &&& 1)) ∧
    (getVx c' 15 = 1 ↔ ∃ r2, r2 < n ∧ ∃ c2, c2 < 8 ∧
        getPixel c.display ((getVx c x + c2) % 64) ((getVx c y + r2) % 32) = 1 ∧
        getPixel c.display ((getVx c x + c2) % 64) ((getVx c y + r2) % 32) ^^^
          (c.mem.getD (c.r_i + r2) 0 >>> (7 - c2) &&& 1) = 0) ∧
    (getVx c' 15 = 0 ↔ ¬ ∃ r2, r2 < n ∧ ∃ c2, c2 < 8 ∧
        getPixel c.display ((getVx c x + c2) % 64) ((getVx c y + r2) % 32) = 1 ∧
        getPixel c.display ((getVx c x + c2) % 64) ((getVx c y + r2) % 32) ^^^
          (c.mem.getD (c.r_i + r2) 0 >>> (7 - c2) &&& 1) = 0) := by
  have hrm : readMem c c.r_i n = some ((c.mem.drop c.r_i).take n) := by
    unfold readMem
    rw [if_pos (by omega)]
  have hlenb : ((c.mem.drop c.r_i).take n).length = n := readMem_length hrm
  have hbyte : ∀ r2, r2 < n → ((c.mem.drop c.r_i).take n).getD r2 0 =
      c.mem.getD (c.r_i + r2) 0 := fun r2 h => readMem_getD hrm h
  refine ⟨?_, ?_⟩
  · rw [drw_cell hwf (by omega) hrm hex _ _ (Nat.mod_lt _ (by omega))
      (Nat.mod_lt _ (by omega))]
    unfold spriteBit
    have h1 : (((getVx c y + r) % 32) + 32 - getVx c y % 32) % 32 = r := by omega
    have h2 : (((getVx c x + cc) % 64) + 64 - getVx c x % 64) % 64 = cc := by omega
    rw [h1, h2, if_pos ⟨by omega, hcc⟩, hbyte r hr]
  · rw [drw_vf hvlen hrm hex]
    have hiff : ((List.range ((c.mem.drop c.r_i).take n).length).any
        (rowHit (getVx c x) (getVx c y) ((c.mem.drop c.r_i).take n) c.display)
          = true) ↔
        (∃ r2, r2 < n ∧ ∃ c2, c2 < 8 ∧
          getPixel c.display ((getVx c x + c2) % 64) ((getVx c y + r2) % 32) = 1 ∧
          getPixel c.display ((getVx c x + c2) % 64) ((getVx c y + r2) % 32) ^^^
            (c.mem.getD (c.r_i + r2) 0 >>> (7 - c2) &&& 1) = 0) := by
      rw [List.any_eq_true]
      constructor
      · rintro ⟨r2, hmem2, hany⟩
        rw [List.mem_range, hlenb] at hmem2
        unfold rowHit at hany
        rw [List.any_eq_true] at hany
        obtain ⟨c2, hc2mem, hcol⟩ := hany
        rw [List.mem_range] at hc2mem
        unfold colHit at hcol
        rw [decide_eq_true_eq] at hcol
        refine ⟨r2, hmem2, c2, hc2mem, ?_⟩
        rw [← hbyte r2 hmem2]
        exact hcol
      · rintro ⟨r2, hr2, c2, hc2, hcol⟩
        refine ⟨r2, by rw [List.mem_range, hlenb]; exact hr2, ?_⟩
        unfold rowHit
        rw [List.any_eq_true]
        refine ⟨c2, List.mem_range.mpr hc2, ?_⟩
        unfold colHit
        rw [decide_eq_true_eq, hbyte r2 hr2]
        exact hcol
    cases hcond : (List.range ((c.mem.drop c.r_i).take n).length).any
        (rowHit (getVx c x) (getVx c y) ((c.mem.drop c.r_i).take n) c.display) with
    | true =>
      rw [if_pos rfl]
      refine ⟨⟨fun _ => hiff.mp hcond, fun _ => rfl⟩, ?_, ?_⟩
      · intro h0
        exact absurd h0 (by omega)
      · intro hne
        exact absurd (hiff.mp hcond) hne
    | false =>
      rw [if_neg (by simp)]
      refine ⟨⟨?_, ?_⟩, fun _ => ?_, fun _ => rfl⟩
      · intro h0
        exact absurd h0 (by omega)
      · intro hex2
        exact absurd (hiff.mpr hex2) (by rw [hcond]; simp)
      · intro hex2
        exact absurd (hiff.mpr hex2) (by rw [hcond]; simp)

/-- Memory length of the concrete `DRW` state. -/
theorem c4wcpu_mem_length : c4wcpu.mem.length = 4096 := by
  show ((List.replicate 4096 0).set 80 255).length = 4096
  rw [List.length_set, List.length_replicate]

/-- Sprite read of the concrete `DRW` state. -/
theorem c4wcpu_readMem : readMem c4wcpu c4wcpu.r_i 1 = some [0xff] := by
  unfold readMem
  rw [if_pos (by rw [c4wcpu_mem_length]; decide)]
  rfl

/-- The concrete `DRW V0,V1,1` succeeds with result `c4wres`. -/
theorem c4wcpu_exec : drwExec 0 1 1 c4wcpu = some c4wres := by
  unfold drwExec
  rw [c4wcpu_readMem]
  rfl

/-- C4 witness: the concrete draw of one `0xff` byte at `(8, 10)`. -/
theorem c4_drw_semantics_witness :
    (getPixel c4wres.display ((getVx c4wcpu 0 + 0) % 64) ((getVx c4wcpu 1 + 0) % 32) =
      getPixel c4wcpu.display ((getVx c4wcpu 0 + 0) % 64) ((getVx c4wcpu 1 + 0) % 32) ^^^
        (c4wcpu.mem.getD (c4wcpu.r_i + 0) 0 >>> (7 - 0) &&& 1)) ∧
    (getVx c4wres 15 = 1 ↔ ∃ r2, r2 < 1 ∧ ∃ c2, c2 < 8 ∧
        getPixel c4wcpu.display ((getVx c4wcpu 0 + c2) % 64) ((getVx c4wcpu 1 + r2) % 32) = 1 ∧
        getPixel c4wcpu.display ((getVx c4wcpu 0 + c2) % 64) ((getVx c4wcpu 1 + r2) % 32) ^^^
          (c4wcpu.mem.getD (c4wcpu.r_i + r2) 0 >>> (7 - c2) &&& 1) = 0) ∧
    (getVx c4wres 15 = 0 ↔ ¬ ∃ r2, r2 < 1 ∧ ∃ c2, c2 < 8 ∧
        getPixel c4wcpu.display ((getVx c4wcpu 0 + c2) % 64) ((getVx c4wcpu 1 + r2) % 32) = 1 ∧
        getPixel c4wcpu.display ((getVx c4wcpu 0 + c2) % 64) ((getVx c4wcpu 1 + r2) % 32) ^^^
          (c4wcpu.mem.getD (c4wcpu.r_i + r2) 0 >>> (7 - c2) &&& 1) = 0) :=
  c4_drw_semantics c4wcpu c4wres 0 1 1 0 0
    ⟨by decide, by decide⟩ (by decide) c4wcpu_mem_length (by decide)
    (by decide) (by decide) (by decide) c4wcpu_exec

/-- C5: drawing the same sprite twice in a row — same registers `Vx`, `Vy`
still holding their old values after the first draw, same `I`, same memory
(the draw touches neither) — restores every framebuffer cell to its value
before the first draw. -/
theorem c5_double_draw (c c' c'' : Cpu) (x y n a b : Nat)
    (hwf : dispWF c.display) (hn : n < 16)
    (h1 : drwExec x y n c = some c') (h2 : drwExec x y n c' = some c'')
    (hvx : getVx c' x = getVx c x) (hvy : getVx c' y = getVx c y)
    (ha : a < 64) (hb : b < 32) :
    getPixel c''.display a b = getPixel c.display a b := by
  cases hrm : readMem c c.r_i n with
  | none =>
    unfold drwExec at h1
    rw [hrm] at h1
    cases h1
  | some bytes =>
    have hlenb : bytes.length = n := readMem_length hrm
    obtain ⟨hd1, hm1, hi1, -⟩ := drwExec_display hrm h1
    have hwf1 : dispWF c'.display := by
      rw [hd1]
      exact dispWF_drawList _ _ hwf
    have hrm2 : readMem c' c'.r_i n = some bytes := by
      unfold readMem at hrm ⊢
      rw [hm1, hi1]
      exact hrm
    have hcell1 := drw_cell hwf (by omega) hrm h1 a b ha hb
    have hcell2 := drw_cell hwf1 (by omega) hrm2 h2 a b ha hb
    rw [hvx, hvy] at hcell2
    rw [hcell2, hcell1, Nat.xor_cancel_right]

/-- C5 witness: the wrapped draw at `(63, 31)` performed twice. -/
theorem c5_double_draw_witness :
    getPixel c5c2.display 0 31 = getPixel c5wcpu.display 0 31 :=
  c5_double_draw c5wcpu c5c1 c5c2 0 1 1 0 31
    ⟨by decide, by decide⟩ (by decide) rfl rfl
    (by decide) (by decide) (by decide) (by decide)
